import Mathlib

/-!
Verification development for the PES-Sandbox orchestration pipeline.

The Python modules under src/python are shallowly embedded:
* sql.py   : sqlite tables become lists of row structures; cursors become
             list searches; autoincrement primary keys become counters.
* orc.py   : parse_log_file becomes a function over an optional list of
             lines (none models a missing file, i.e. FileNotFoundError).
* aml.py   : _build_scan and process_rdkit_reaction become functions over
             explicit bond lists and an oracle for the external chemistry
             collaborator; python sets are modelled as lists in iteration
             order.
* hyq.py   : submit_tasks_orca becomes a fold accumulating the issued
             cluster-allocation requests and per-task resource requests.

Python floats are modelled as exact rationals, except the memory-unit
conversion of hyq.py, whose IEEE binary64 evaluation is modelled
bit-exactly with integer arithmetic; python exceptions are modelled
with an explicit error type threaded through Except/Option.
-/

/-- Python exception kinds that the embedded code can raise. -/
inductive PyErr where
  | fileNotFound
  | valueError
  | attributeError
  | indexError
  | typeError
deriving Repr, DecidableEq

/-! ### Python string helpers -/

/-- Does the needle match at the head of the haystack (character lists)? -/
def subAt : List Char → List Char → Bool
  | [], _ => true
  | _ :: _, [] => false
  | c :: cs, d :: ds => c == d && subAt cs ds

/-- Substring containment on character lists: models the python test
needle in hay for strings. -/
def containsSub : List Char → List Char → Bool
  | [], needle => needle.isEmpty
  | c :: t, needle => subAt needle (c :: t) || containsSub t needle

/-- Models the python expression needle in hay for strings. -/
def strContainsSub (hay needle : String) : Bool :=
  containsSub hay.data needle.data

/-- Models python str.strip(): drop whitespace from both ends. -/
def pyStrip (s : String) : String :=
  String.mk (((s.data.dropWhile Char.isWhitespace).reverse.dropWhile Char.isWhitespace).reverse)

/-- Helper for pySplitSpace: split a character list on each single space,
keeping empty chunks, exactly like python str.split with an explicit
single-space separator. -/
def splitSpaceChars : List Char → List Char → List (List Char)
  | [], cur => [cur.reverse]
  | c :: rest, cur =>
    if c = ' ' then cur.reverse :: splitSpaceChars rest []
    else splitSpaceChars rest (c :: cur)

/-- Models the python call s.split with separator a single space. -/
def pySplitSpace (s : String) : List String :=
  (splitSpaceChars s.data []).map String.mk

/-- Numeric value of a digit-only character list, if it is one and nonempty. -/
def digitsVal (cs : List Char) : Option Nat :=
  if cs.isEmpty then none
  else if cs.all Char.isDigit then
    some (cs.foldl (fun a c => a * 10 + (c.toNat - 48)) 0)
  else none

/-- Models the python float constructor on plain decimal notation
(optional sign, integer part, optional fractional part); scientific
notation, inf and nan are outside the inputs exercised here. -/
def parseDecimal (s : String) : Option ℚ :=
  let cs := s.data
  let signAndRest : ℚ × List Char :=
    match cs with
    | '-' :: t => (-1, t)
    | '+' :: t => (1, t)
    | _ => (1, cs)
  let sign := signAndRest.1
  let body := signAndRest.2
  let intPart := body.takeWhile (fun c => c ≠ '.')
  let rest := body.dropWhile (fun c => c ≠ '.')
  match rest with
  | [] =>
    match digitsVal intPart with
    | some n => some (sign * n)
    | none => none
  | _ :: frac =>
    if intPart.isEmpty && frac.isEmpty then none
    else if intPart.all Char.isDigit && frac.all Char.isDigit then
      let ip : ℚ := (intPart.foldl (fun a c => a * 10 + (c.toNat - 48)) 0 : Nat)
      let fp : ℚ := (frac.foldl (fun a c => a * 10 + (c.toNat - 48)) 0 : Nat)
      some (sign * (ip + fp / (10 : ℚ) ^ frac.length))
    else none

/-- Models the python "\n".join applied to a string, which interleaves a
newline between every pair of adjacent characters. -/
def joinNLChars : List Char → List Char
  | [] => []
  | [c] => [c]
  | c :: d :: rest => c :: '\n' :: joinNLChars (d :: rest)

/-- Models sql.py line 69: scan_string = "\n".join(scan) where scan is a
string. -/
def pyJoinNewline (s : String) : String :=
  String.mk (joinNLChars s.data)

/-! ### Database model (sql.py)

The sqlite store of initialize_database: three tables as row lists plus
counters modelling INTEGER PRIMARY KEY assignment (cursor.lastrowid). -/

/-- Row of the stationary table. -/
structure StRow where
  id : Nat
  amchi : String
  smiles : String
  xyz : String
deriving Repr, DecidableEq

/-- Row of the transition table. -/
structure TrRow where
  id : Nat
  amchi : String
  reactant_1 : Nat
  reactant_2 : Option Nat
  product_1 : Nat
  product_2 : Option Nat
  xyz : String
  scan : String
deriving Repr, DecidableEq

/-- Row of the energies table.  The imaginary_frequency value is stored
as the raw token string sliced from the log line (sql.py line 218 stores
imag_line.split(" ")[3] without converting it to a number). -/
structure EnRow where
  id : Nat
  stationary_id : Option Nat
  transition_id : Option Nat
  single_point : Option ℚ
  zero_point : Option ℚ
  total_energy : Option ℚ
  imaginary_frequency : Option String
deriving Repr, DecidableEq

/-- The sqlite database with the three tables of initialize_database. -/
structure DB where
  stationary : List StRow
  transition : List TrRow
  energies : List EnRow
  nextStationaryId : Nat
  nextTransitionId : Nat
  nextEnergyId : Nat
deriving Repr, DecidableEq

/-- Models sqlite3 cursor.fetchall(): it always returns a list object and
never returns the python None, so the embedded value is always some. -/
def pyFetchall (rows : List StRow) : Option (List StRow) :=
  some rows

/-- Embedding of sql.py amchi_in_database: select the matching stationary
rows, fetchall, and return the python test matches is None. -/
def amchi_in_database (amchi : String) (db : DB) : Bool :=
  let ms := pyFetchall (db.stationary.filter (fun r => r.amchi == amchi))
  ms.isNone

/-! ### Log parsing model (orc.py parse_log_file) -/

/-- A working-directory filesystem: identifier and file name to the file
content as a list of lines, none when the file does not exist. -/
def FS : Type := String → String → Option (List String)

/-- Embedding of orc.py parse_log_file.  The file argument is the content
of the log file, or none when it is absent, in which case opening the
file raises FileNotFoundError.  Lines containing the search string are
collected (stripped); exactly one match returns that line, any other
count returns the python None. -/
def parse_log_file (file : Option (List String)) (search_string : String) :
    Except PyErr (Option String) :=
  match file with
  | none => Except.error PyErr.fileNotFound
  | some lines =>
    match (lines.filter (fun l => strContainsSub l search_string)).map pyStrip with
    | [m] => Except.ok (some m)
    | _ => Except.ok none

/-! ### Result harvesting model (sql.py log_energies) -/

/-- Last element of a python list indexing with -1; total because
str.split with an explicit separator never yields an empty list. -/
def pyLastTok (s : String) : String :=
  (pySplitSpace s).getLast?.getD ""

/-- Second-to-last token, python index -2; none models IndexError. -/
def pySecondLastTok (s : String) : Option String :=
  match (pySplitSpace s).reverse with
  | _ :: x :: _ => some x
  | _ => none

/-- Token at python index 3 of line.split(" "); none models IndexError. -/
def pyTokThree (s : String) : Option String :=
  (pySplitSpace s).get? 3

/-- Embedding of the inner function _parse_energies of sql.py
log_energies: read the single-point energy from calc.log (scaled by
627.5095) and the zero-point energy from freq.log, each None when the
marker line is absent or ambiguous; the total is their sum when both are
known.  float() on a non-numeric token raises ValueError; a too-short
line raises IndexError. -/
def _parse_energies (fs : FS) (amchi : String) :
    Except PyErr (Option ℚ × Option ℚ × Option ℚ) := do
  let spc_line ← parse_log_file (fs amchi "calc.log") "FINAL SINGLE POINT ENERGY"
  let spc_energy : Option ℚ ←
    match spc_line with
    | some s =>
      if s = "" then pure none
      else
        match parseDecimal (pyLastTok s) with
        | some v => pure (some (v * (627.5095 : ℚ)))
        | none => Except.error PyErr.valueError
    | none => pure none
  let zpv_line ← parse_log_file (fs amchi "freq.log") "Zero point energy"
  let zpv_energy : Option ℚ ←
    match zpv_line with
    | some s =>
      if s = "" then pure none
      else
        match pySecondLastTok s with
        | some tok =>
          match parseDecimal tok with
          | some v => pure (some v)
          | none => Except.error PyErr.valueError
        | none => Except.error PyErr.indexError
    | none => pure none
  let tot_energy : Option ℚ :=
    match spc_energy, zpv_energy with
    | some a, some b => some (a + b)
    | _, _ => none
  pure (spc_energy, zpv_energy, tot_energy)

/-- Embedding of the inner function _parse_imaginary of sql.py
log_energies. -/
def _parse_imaginary (fs : FS) (amchi : String) : Except PyErr (Option String) :=
  parse_log_file (fs amchi "freq.log") "***imaginary mode***"

/-- Models imag_line = _parse_imaginary(amchi).strip() followed by
imag_freq = imag_line.split(" ")[3].  Calling .strip() on the python
None raises AttributeError; a too-short line raises IndexError. -/
def imagToken (line : Option String) : Except PyErr String :=
  match line with
  | none => Except.error PyErr.attributeError
  | some s =>
    match pyTokThree (pyStrip s) with
    | some tok => Except.ok tok
    | none => Except.error PyErr.indexError

/-- Body of the stationary loop of log_energies for one fetched
(id, amchi) row: fetch the energies row keyed by stationary_id; if it
exists and any of the three energy fields is NULL, re-parse and UPDATE
all three fields with the parse results; if no row exists, INSERT one
with the parse results. -/
def logEnergiesStationaryStep (fs : FS) (db : DB) (r : StRow) : Except PyErr DB :=
  match db.energies.find? (fun e => e.stationary_id == some r.id) with
  | some e =>
    if e.single_point = none ∨ e.zero_point = none ∨ e.total_energy = none then
      match _parse_energies fs r.amchi with
      | Except.error err => Except.error err
      | Except.ok (s, z, t) =>
        Except.ok { db with
          energies := db.energies.map (fun e2 =>
            if e2.stationary_id == some r.id then
              { e2 with single_point := s, zero_point := z, total_energy := t }
            else e2) }
    else Except.ok db
  | none =>
    match _parse_energies fs r.amchi with
    | Except.error err => Except.error err
    | Except.ok (s, z, t) =>
      Except.ok { db with
        energies := db.energies ++ [⟨db.nextEnergyId, some r.id, none, s, z, t, none⟩],
        nextEnergyId := db.nextEnergyId + 1 }

/-- Body of the transition loop of log_energies for one fetched
(id, amchi) row: like the stationary body for the three energy fields,
then, when the fetched imaginary_frequency is NULL, parse the imaginary
mode line and UPDATE the field with token 3 of that line. -/
def logEnergiesTransitionStep (fs : FS) (db : DB) (r : TrRow) : Except PyErr DB :=
  match db.energies.find? (fun e => e.transition_id == some r.id) with
  | some e =>
    let afterEnergies : Except PyErr DB :=
      if e.single_point = none ∨ e.zero_point = none ∨ e.total_energy = none then
        match _parse_energies fs r.amchi with
        | Except.error err => Except.error err
        | Except.ok (s, z, t) =>
          Except.ok { db with
            energies := db.energies.map (fun e2 =>
              if e2.transition_id == some r.id then
                { e2 with single_point := s, zero_point := z, total_energy := t }
              else e2) }
      else Except.ok db
    match afterEnergies with
    | Except.error err => Except.error err
    | Except.ok db1 =>
      if e.imaginary_frequency = none then
        match _parse_imaginary fs r.amchi with
        | Except.error err => Except.error err
        | Except.ok line =>
          match imagToken line with
          | Except.error err => Except.error err
          | Except.ok tok =>
            Except.ok { db1 with
              energies := db1.energies.map (fun e2 =>
                if e2.transition_id == some r.id then
                  { e2 with imaginary_frequency := some tok }
                else e2) }
      else Except.ok db1
  | none =>
    match _parse_energies fs r.amchi with
    | Except.error err => Except.error err
    | Except.ok (s, z, t) =>
      match _parse_imaginary fs r.amchi with
      | Except.error err => Except.error err
      | Except.ok line =>
        match imagToken line with
        | Except.error err => Except.error err
        | Except.ok tok =>
          Except.ok { db with
            energies := db.energies ++ [⟨db.nextEnergyId, none, some r.id, s, z, t, some tok⟩],
            nextEnergyId := db.nextEnergyId + 1 }

/-- Stationary loop of log_energies over the snapshot of fetched rows. -/
def logStationaryLoop (fs : FS) : List StRow → DB → Except PyErr DB
  | [], db => Except.ok db
  | r :: rest, db =>
    match logEnergiesStationaryStep fs db r with
    | Except.error err => Except.error err
    | Except.ok db2 => logStationaryLoop fs rest db2

/-- Transition loop of log_energies over the snapshot of fetched rows. -/
def logTransitionLoop (fs : FS) : List TrRow → DB → Except PyErr DB
  | [], db => Except.ok db
  | r :: rest, db =>
    match logEnergiesTransitionStep fs db r with
    | Except.error err => Except.error err
    | Except.ok db2 => logTransitionLoop fs rest db2

/-- Embedding of sql.py log_energies: harvest energies for every
stationary row, then for every transition row.  The row snapshots are
fetched before each loop; the loops never modify those tables. -/
def log_energies (fs : FS) (db : DB) : Except PyErr DB :=
  match logStationaryLoop fs db.stationary db with
  | Except.error err => Except.error err
  | Except.ok db1 => logTransitionLoop fs db1.transition db1

/-! ### Store reconciliation model (sql.py enumerated_graph_into_database)

A networkx node is an amchi key with an attribute dictionary; absent
attributes read as the python None, hence the Option fields. -/

/-- Attribute dictionary of one node of the enumerated graph. -/
structure NodeData where
  role : Option String
  smiles : Option String := none
  xyz : Option String := none
  scan : Option String := none
  reactants : Option (List String) := none
  products : Option (List String) := none
deriving Repr, DecidableEq

/-- The enumerated work graph as its node list (key and attributes) in
iteration order; edges are not read by enumerated_graph_into_database. -/
abbrev EnumGraph : Type := List (String × NodeData)

/-- Models sql.py line 31: data.get("role") not in ("reactant", "product"),
negated, i.e. membership of the role in that tuple. -/
def isStationaryRole (r : Option String) : Bool :=
  r == some "reactant" || r == some "product"

/-- Models sql.py line 60: the test data.get("role") in ("transition"),
where ("transition") is a string, so the test is substring containment;
the python None as left operand raises TypeError, modelled as none. -/
def isTransitionRole (r : Option String) : Option Bool :=
  match r with
  | none => none
  | some s => some (strContainsSub "transition" s)

/-- Lookup in the amchi_to_ids dictionary. -/
def lookupId (m : List (String × Nat)) (a : String) : Option Nat :=
  (m.find? (fun p => p.1 == a)).map (fun p => p.2)

/-- First pass body of enumerated_graph_into_database for one node:
skip non-stationary roles; otherwise SELECT by amchi, record the
existing id, or INSERT a new row (NULL smiles or xyz would violate the
NOT NULL constraints, modelled as failure) and record the new id and
the amchi in to_submit. -/
def stationaryStep (st : DB × List (String × Nat) × List (String × String))
    (node : String × NodeData) :
    Option (DB × List (String × Nat) × List (String × String)) :=
  let db := st.1
  let ids := st.2.1
  let sub := st.2.2
  let amchi := node.1
  let d := node.2
  if isStationaryRole d.role = false then some (db, ids, sub)
  else
    match db.stationary.find? (fun r => r.amchi == amchi) with
    | some row => some (db, ids ++ [(amchi, row.id)], sub)
    | none =>
      match d.smiles, d.xyz with
      | some sm, some xy =>
        some ({ db with
                stationary := db.stationary ++ [⟨db.nextStationaryId, amchi, sm, xy⟩],
                nextStationaryId := db.nextStationaryId + 1 },
              ids ++ [(amchi, db.nextStationaryId)],
              sub ++ [(amchi, "stationary")])
      | _, _ => none

/-- INSERT branch of the second pass of enumerated_graph_into_database:
resolve up to two reactant and two product foreign keys through
amchi_to_ids (KeyError or IndexError modelled as none, as are NULL
values for the NOT NULL columns) and append the transition row. -/
def insertTransitionRow (ids : List (String × Nat)) (db : DB)
    (sub : List (String × String)) (amchi : String) (d : NodeData) :
    Option (DB × List (String × String)) :=
  match d.xyz, d.scan, d.reactants, d.products with
  | some xy, some sc, some rs, some ps =>
    match rs, ps with
    | r0 :: rrest, p0 :: prest =>
      match lookupId ids r0, lookupId ids p0 with
      | some r1, some p1 =>
        let r2o : Option (Option Nat) :=
          match rrest with
          | [] => some none
          | rb :: _ => (lookupId ids rb).map some
        let p2o : Option (Option Nat) :=
          match prest with
          | [] => some none
          | pb :: _ => (lookupId ids pb).map some
        match r2o, p2o with
        | some r2, some p2 =>
          some ({ db with
                  transition := db.transition ++
                    [⟨db.nextTransitionId, amchi, r1, r2, p1, p2, xy, pyJoinNewline sc⟩],
                  nextTransitionId := db.nextTransitionId + 1 },
                sub ++ [(amchi, "transition")])
        | _, _ => none
      | _, _ => none
    | _, _ => none
  | _, _, _, _ => none

/-- Second pass body of enumerated_graph_into_database for one node:
skip when the role check is not a transition match (TypeError on a
missing role); otherwise SELECT by amchi and only INSERT when absent. -/
def transitionStep (ids : List (String × Nat))
    (st : DB × List (String × String)) (node : String × NodeData) :
    Option (DB × List (String × String)) :=
  let db := st.1
  let sub := st.2
  let amchi := node.1
  let d := node.2
  match isTransitionRole d.role with
  | none => none
  | some false => some (db, sub)
  | some true =>
    match db.transition.find? (fun r => r.amchi == amchi) with
    | some _ => some (db, sub)
    | none => insertTransitionRow ids db sub amchi d

/-- First pass of enumerated_graph_into_database over all nodes. -/
def runPass1 : EnumGraph → DB × List (String × Nat) × List (String × String) →
    Option (DB × List (String × Nat) × List (String × String))
  | [], st => some st
  | n :: g, st =>
    match stationaryStep st n with
    | none => none
    | some st2 => runPass1 g st2

/-- Second pass of enumerated_graph_into_database over all nodes. -/
def runPass2 (ids : List (String × Nat)) :
    EnumGraph → DB × List (String × String) → Option (DB × List (String × String))
  | [], st => some st
  | n :: g, st =>
    match transitionStep ids st n with
    | none => none
    | some st2 => runPass2 ids g st2

/-- Embedding of sql.py enumerated_graph_into_database: reconcile all
stationary nodes, then all transition nodes, returning the updated
store and the to_submit mapping of newly inserted identifiers; the
directory and seed-file materialization is an effect outside this model
and no claim reads it. -/
def enumerated_graph_into_database (g : EnumGraph) (db : DB) :
    Option (DB × List (String × String)) :=
  match runPass1 g (db, [], []) with
  | none => none
  | some (db1, ids, sub1) =>
    match runPass2 ids g (db1, sub1) with
    | none => none
    | some (db2, sub2) => some (db2, sub2)

/-- Number of rows of the stationary table carrying a given amchi. -/
def countAmchiSt (l : List StRow) (a : String) : Nat :=
  (l.filter (fun r => r.amchi == a)).length

/-- Number of rows of the transition table carrying a given amchi. -/
def countAmchiTr (l : List TrRow) (a : String) : Nat :=
  (l.filter (fun r => r.amchi == a)).length

/-- Does the graph hold a node with this amchi that the first pass
treats as stationary? -/
def hasStationaryNode (g : EnumGraph) (a : String) : Bool :=
  g.any (fun n => n.1 == a && isStationaryRole n.2.role)

/-- Does the graph hold a node with this amchi that the second pass
treats as a transition? -/
def hasTransitionNode (g : EnumGraph) (a : String) : Bool :=
  g.any (fun n => n.1 == a && (isTransitionRole n.2.role == some true))

/-! ### Scan directive model (aml.py _build_scan)

Bonds are frozensets of two atom indices; they are modelled as ordered
pairs, with the shared-atom count computed with genuine set semantics.
Python set iteration order is modelled by the list order of the broken
and formed bond lists.  The directive string
scan B a b = dist, step, 100 is modelled structurally by its four data. -/

/-- One bond-scan directive as written by _build_scan (the active_atoms
value returned alongside always repeats the directive's atom pair). -/
structure ScanDirective where
  atom_1 : Nat
  atom_2 : Nat
  start_dist : ℚ
  step_size : ℚ
  n_steps : Nat
deriving Repr, DecidableEq

/-- Cardinality of broken_bond & formed_bond as frozensets. -/
def sharedAtomCount (b1 b2 : Nat × Nat) : Nat :=
  (({b1.1, b1.2} : Finset ℕ) ∩ {b2.1, b2.2}).card

/-- Models next(iter(formed_bond - shared)) when the shared set has one
element: the atom of the formed bond not belonging to the broken bond. -/
def otherAtom (f : Nat × Nat) (bb : Nat × Nat) : Nat :=
  if f.1 = bb.1 ∨ f.1 = bb.2 then f.2 else f.1

/-- Unit conversion of aml.py line 52: distances times 0.529177
(dmat_angstrom scales the whole matrix; the model scales each entry). -/
def angstrom (q : ℚ) : ℚ :=
  q * (0.529177 : ℚ)

/-- Embedding of aml.py _build_scan.  The accumulator models the local
variable scan, which starts unbound (none) and is overwritten by each
assignment; returning none models the UnboundLocalError raised when the
function ends with scan never assigned. -/
def _build_scan (broken formed : List (Nat × Nat)) (dmat : Nat → Nat → ℚ) :
    Option ScanDirective :=
  broken.foldl
    (fun scan bb =>
      if formed.length > 0 then
        formed.foldl
          (fun scan2 fb =>
            if sharedAtomCount bb fb = 1 then
              let c := otherAtom fb bb
              some ⟨bb.2, c, angstrom (dmat bb.2 c), (0.7 : ℚ), 100⟩
            else scan2)
          scan
      else
        some ⟨bb.1, bb.2, angstrom (dmat bb.1 bb.2), (2.0 : ℚ), 100⟩)
    none

/-- Last forming bond of the list sharing exactly one atom with the
given breaking bond, if any: the survivor of the overwriting loop. -/
def lastQualifying (bb : Nat × Nat) : List (Nat × Nat) → Option (Nat × Nat)
  | [] => none
  | f :: rest =>
    match lastQualifying bb rest with
    | some g => some g
    | none => if sharedAtomCount bb f = 1 then some f else none

/-! ### Job submission model (hyq.py submit_tasks_orca)

Only the resource fields of ORCA_Parameters are read by hyq.py; the
input-file fields of the dataclass are irrelevant to the claims and are
omitted.  The model records the issued allocation requests and the
per-task resource requests; the hyperqueue client, the dependency
wiring and the actual scheduler calls are external effects. -/

/-- Resource-relevant fields of orc.py ORCA_Parameters. -/
structure ORCA_Parameters where
  name_out : String
  processors : Nat
  max_memory : Nat
  lscratch_size : Nat
  time_limit : String
deriving Repr, DecidableEq

/-- Floor of the base-2 logarithm by fuelled halving, so that the
kernel can evaluate it on literals; the fuel n always suffices. -/
def log2Fuel : Nat → Nat → Nat
  | 0, _ => 0
  | fuel + 1, n => if n ≤ 1 then 0 else log2Fuel fuel (n / 2) + 1

/-- Floor of the base-2 logarithm of a positive natural number. -/
def natLog2 (n : Nat) : Nat := log2Fuel n n

/-- Integer rounding of p / q to the nearest multiple, ties to even
(IEEE round-to-nearest-even on the chosen grid), for q positive. -/
def rneDiv (p q : Nat) : Nat :=
  let n := p / q
  let r := p % q
  if 2 * r < q then n
  else if q < 2 * r then n + 1
  else if n % 2 = 0 then n else n + 1

/-- A nonnegative binary64 value m * 2 ^ exp, normalized: m = 0 or
2^52 ≤ m < 2^53. -/
structure B64 where
  m : Nat
  exp : Int
deriving Repr, DecidableEq

/-- The 53-bit mantissa of the binary64 double nearest to the literal
1.049: that double is 4724276009111650 * 2 ^ (-52), slightly below
1.049, which is why quotients at multiples of 1049 land just above the
exact integer result. -/
def mant1049 : Nat := 4724276009111650

/-- Conversion of a python int to binary64 with round-to-nearest-even
(exact below 2^53), as performed before the float division. -/
def roundNatToB64 (x : Nat) : B64 :=
  if x = 0 then ⟨0, 0⟩
  else
    let l := natLog2 x
    if l ≤ 52 then ⟨x * 2 ^ (52 - l), (l : Int) - 52⟩
    else
      let sh := l - 52
      let k := rneDiv x (2 ^ sh)
      if k = 2 ^ 53 then ⟨2 ^ 52, (sh : Int) + 1⟩ else ⟨k, (sh : Int)⟩

/-- Binary64 division of a nonnegative double by the double 1.049
(mantissa mant1049, exponent -52), rounding the exact quotient to
nearest-even on the result's grid. -/
def divDouble1049 (v : B64) : B64 :=
  if v.m = 0 then ⟨0, 0⟩
  else if mant1049 ≤ v.m then
    let k := rneDiv (v.m * 2 ^ 52) mant1049
    if k = 2 ^ 53 then ⟨2 ^ 52, v.exp + 1⟩ else ⟨k, v.exp⟩
  else
    let k := rneDiv (v.m * 2 ^ 53) mant1049
    if k = 2 ^ 53 then ⟨2 ^ 52, v.exp⟩ else ⟨k, v.exp - 1⟩

/-- math.ceil of a nonnegative binary64 value, exact. -/
def ceilB64 (v : B64) : Nat :=
  if 0 ≤ v.exp then v.m * 2 ^ v.exp.toNat
  else (v.m + 2 ^ (-v.exp).toNat - 1) / 2 ^ (-v.exp).toNat

/-- Models ceil(pars.max_memory / 1.049) of hyq.py lines 53 and 91 as
the program computes it, in IEEE binary64 arithmetic: the int is
converted to double, divided by the double nearest 1.049 with
round-to-nearest-even, and math.ceil is applied.  At multiples of
1049 this exceeds the exact rational ceiling by one (1049 gives 1001,
not 1000).  The model covers the normal double range, far beyond any
memory size. -/
def memMiB (max_memory : Nat) : Nat :=
  ceilB64 (divDouble1049 (roundNatToB64 max_memory))

/-- Embedding of hyq.py _slurm_alloc: the command-line token list of one
cluster-allocation request. -/
def _slurm_alloc (pars : ORCA_Parameters) : List String :=
  ["hq", "alloc", "add", "slurm",
   "--time-limit", pars.time_limit,
   "--cpus=" ++ toString pars.processors,
   "--resource=mem=sum(" ++ toString (memMiB pars.max_memory) ++ ")",
   "--",
   "--partition=batch",
   "--ntasks=" ++ toString pars.processors,
   "--mem-per-cpu=" ++ toString pars.max_memory,
   "--gres=lscratch:" ++ toString pars.lscratch_size]

/-- Resource request of one submitted task: working directory, cpu count
and memory in MiB, as passed to ResourceRequest. -/
structure TaskReq where
  cwd : String
  cpus : Nat
  mem : Nat
deriving Repr, DecidableEq

/-- Loop body of submit_tasks_orca for one task-graph node: build the
allocation token list, issue it only when its rendered text
"".join(allocation) is not in allocation_requests yet, then append the
task with its ResourceRequest. -/
def submitStep (st : List String × List (List String) × List TaskReq)
    (node : String × ORCA_Parameters) :
    List String × List (List String) × List TaskReq :=
  let reqs := st.1
  let issued := st.2.1
  let tasks := st.2.2
  let pars := node.2
  let allocation := _slurm_alloc pars
  let key := String.join allocation
  let reqsIssued :=
    if reqs.contains key then (reqs, issued)
    else (reqs ++ [key], issued ++ [allocation])
  (reqsIssued.1, reqsIssued.2,
   tasks ++ [⟨node.1, pars.processors, memMiB pars.max_memory⟩])

/-- Embedding of the submission loop of hyq.py submit_tasks_orca over the
task graph's nodes: returns the final allocation_requests set (as the
list of rendered keys), the issued allocation requests in order, and
the submitted tasks with their resource requests. -/
def submit_tasks_orca (task_graph : List (String × ORCA_Parameters)) :
    List String × List (List String) × List TaskReq :=
  task_graph.foldl submitStep ([], [], [])

/-! ### Graph builder model (aml.py process_rdkit_reaction)

The chemistry collaborators (rdkit serialization, automol
canonicalization, geometry generation and reaction enumeration) are
external per the specification; their outputs appear as fields of the
input records and as the reaction oracle passed in. -/

/-- One structural input after the collaborator round-trips: its rdkit
smiles, the canonical smiles re-derived from the amchi, the canonical
amchi, and the xyz geometry block. -/
structure MolInput where
  input_smiles : String
  canon_smiles : String
  amchi : String
  xyz : String

/-- One transition structure produced by the reaction collaborator:
its canonical amchi, geometry, and the forming and breaking bond sets
with the geometry's distance matrix. -/
structure TransInfo where
  amchi : String
  xyz : String
  broken : List (Nat × Nat)
  formed : List (Nat × Nat)
  dmat : Nat → Nat → ℚ

/-- Attributes of one node of the builder's networkx DiGraph. -/
structure ANodeData where
  role : String
  smiles : Option String := none
  xyz : String
  scan : Option ScanDirective := none
  reactants : List String := []
  products : List String := []
deriving Repr, DecidableEq

/-- The builder's networkx DiGraph: keyed nodes and a set of directed
edges, both in insertion order. -/
structure AGraph where
  nodes : List (String × ANodeData)
  edges : List (String × String)
deriving Repr, DecidableEq

/-- Models networkx add_node: an existing key has its attributes
replaced (every call site supplies the full attribute set for its
role), a new key is appended. -/
def addNode (g : AGraph) (key : String) (d : ANodeData) : AGraph :=
  if g.nodes.any (fun n => n.1 == key) then
    { g with nodes := g.nodes.map (fun n => if n.1 == key then (key, d) else n) }
  else
    { g with nodes := g.nodes ++ [(key, d)] }

/-- Models networkx add_edge for endpoints that are already nodes (every
call site adds both endpoints first); duplicate edges are absorbed. -/
def addEdge (g : AGraph) (u v : String) : AGraph :=
  if g.edges.contains (u, v) then g
  else { g with edges := g.edges ++ [(u, v)] }

/-- Embedding of the inner function _add_stationary of
process_rdkit_reaction: add one stationary node per molecule and return
the accumulated amchi and canonical-smiles lists. -/
def _add_stationary (g : AGraph) (mols : List MolInput) (role : String) :
    AGraph × List String × List String :=
  mols.foldl
    (fun st m =>
      (addNode st.1 m.amchi ⟨role, some m.input_smiles, m.xyz, none, [], []⟩,
       st.2.1 ++ [m.amchi], st.2.2 ++ [m.canon_smiles]))
    (g, [], [])

/-- Embedding of the inner function _add_transition of
process_rdkit_reaction: build the scan directive (none models the
UnboundLocalError escaping _build_scan) and add the transition node. -/
def _add_transition (g : AGraph) (rAmchis pAmchis : List String) (t : TransInfo) :
    Option (AGraph × String) :=
  match _build_scan t.broken t.formed t.dmat with
  | none => none
  | some d =>
    some (addNode g t.amchi ⟨"transition", none, t.xyz, some d, rAmchis, pAmchis⟩, t.amchi)

/-- Inner loop of the workflow of process_rdkit_reaction: one transition
node per generated reaction, wired from every reactant amchi and to
every product amchi. -/
def transLoop (rAmchis pAmchis : List String) :
    List TransInfo → AGraph → Option AGraph
  | [], g => some g
  | t :: rest, g =>
    match _add_transition g rAmchis pAmchis t with
    | none => none
    | some (g2, tAmchi) =>
      let g3 := rAmchis.foldl (fun gg r => addEdge gg r tAmchi) g2
      let g4 := pAmchis.foldl (fun gg p => addEdge gg tAmchi p) g3
      transLoop rAmchis pAmchis rest g4

/-- Outer loop of the workflow over the candidate product sets. -/
def productSetLoop (rAmchis rSmiles : List String)
    (reaction_graphs : List String → List String → List TransInfo) :
    List (List MolInput) → AGraph → Option AGraph
  | [], g => some g
  | ps :: rest, g =>
    let step := _add_stationary g ps "product"
    match transLoop rAmchis step.2.1 (reaction_graphs rSmiles step.2.2) step.1 with
    | none => none
    | some g2 => productSetLoop rAmchis rSmiles reaction_graphs rest g2

/-- Embedding of aml.py process_rdkit_reaction: add the reactant nodes,
then per candidate product set add the product nodes and one transition
node (with edges) per generated reaction. -/
def process_rdkit_reaction (reactants : List MolInput)
    (product_sets : List (List MolInput))
    (reaction_graphs : List String → List String → List TransInfo) :
    Option AGraph :=
  let step := _add_stationary ⟨[], []⟩ reactants "reactant"
  productSetLoop step.2.1 step.2.2 reaction_graphs product_sets step.1

/-- Number of stationary (reactant or product) nodes of a built graph. -/
def stationaryCount (g : AGraph) : Nat :=
  (g.nodes.filter (fun n => n.2.role == "reactant" || n.2.role == "product")).length

/-- Number of transition nodes of a built graph. -/
def transitionCount (g : AGraph) : Nat :=
  (g.nodes.filter (fun n => n.2.role == "transition")).length

/-- Number of edges into a node of a built graph. -/
def inDegree (g : AGraph) (v : String) : Nat :=
  (g.edges.filter (fun e => e.2 == v)).length

/-- Number of edges out of a node of a built graph. -/
def outDegree (g : AGraph) (v : String) : Nat :=
  (g.edges.filter (fun e => e.1 == v)).length

/-! ### Concrete instances used by witnesses and counterexamples -/

/-- Work graph with one reactant, one product and one transition. -/
def gW : EnumGraph :=
  [("R", ⟨some "reactant", some "C", some "xr", none, none, none⟩),
   ("P", ⟨some "product", some "O", some "xp", none, none, none⟩),
   ("T", ⟨some "transition", none, some "xt", some "s", some ["R"], some ["P"]⟩)]

/-- Freshly initialized store. -/
def db0W : DB := ⟨[], [], [], 1, 1, 1⟩

/-- Store state after reconciling gW against db0W. -/
def db1W : DB :=
  ⟨[⟨1, "R", "C", "xr"⟩, ⟨2, "P", "O", "xp"⟩],
   [⟨1, "T", 1, none, 2, none, "xt", "s"⟩], [], 3, 2, 1⟩

/-- Newly inserted identifiers of that first reconciliation. -/
def subW : List (String × String) :=
  [("R", "stationary"), ("P", "stationary"), ("T", "transition")]

/-- Working directories where both logs exist but carry no marker line. -/
def fsC2 : FS := fun amchi file =>
  if amchi = "A" ∧ (file = "calc.log" ∨ file = "freq.log") then some ["nothing to see"]
  else none

/-- Store with one stationary record whose energies row has single_point
set and the other fields NULL. -/
def dbC2 : DB :=
  ⟨[⟨1, "A", "C", "xa"⟩], [], [⟨1, some 1, none, some 1, none, none, none⟩], 2, 1, 2⟩

/-- Working directories where calc.log has exactly one single-point line
and freq.log exists without markers. -/
def fs2W : FS := fun amchi file =>
  if amchi = "A" then
    if file = "calc.log" then some ["FINAL SINGLE POINT ENERGY -2.0"]
    else if file = "freq.log" then some ["no match"]
    else none
  else none

/-- Incomplete energies row for the C2 witness. -/
def e0W : EnRow := ⟨1, some 1, none, some 5, none, none, none⟩

/-- Store with one stationary record and no energies rows. -/
def db3 : DB := ⟨[⟨1, "A", "C", "xa"⟩], [], [], 2, 1, 1⟩

/-- Working directories of one transition whose logs exist but contain
no imaginary-mode line. -/
def fs6 : FS := fun amchi file =>
  if amchi = "T" then
    if file = "calc.log" then some ["no energies here"]
    else if file = "freq.log" then some ["no imaginary lines"]
    else none
  else none

/-- Store with one transition record and no energies rows. -/
def db6 : DB := ⟨[], [⟨1, "T", 1, none, 1, none, "xt", "s"⟩], [], 1, 2, 1⟩

/-- Reactant input for the end-to-end scenario. -/
def rEx9 : MolInput := ⟨"C", "C", "R", "xr"⟩

/-- First product input for the end-to-end scenario. -/
def pEx91 : MolInput := ⟨"O", "O", "P1", "xp1"⟩

/-- Second product input for the end-to-end scenario. -/
def pEx92 : MolInput := ⟨"N", "N", "P2", "xp2"⟩

/-- Generated transition for the end-to-end scenario: one breaking bond,
no forming bonds, unit distances. -/
def tEx9 : TransInfo := ⟨"T", "xt", [(0, 1)], [], fun _ _ => 1⟩

deriving instance DecidableEq for Except

/-! ### Theorems -/

/-- C10: for every amchi string and every database, amchi_in_database
returns False, even when the amchi is present in the stationary table,
because cursor.fetchall() always returns a list (never None) and the
function returns matches is None. -/
theorem c10_amchi_in_database_always_false (amchi : String) (db : DB) :
    amchi_in_database amchi db = false := rfl

/-- C3 evidence: when the working directory of a stationary record lacks
calc.log, the harvest pass does not leave the fields unknown and
continue; opening the missing log raises FileNotFoundError, which
propagates out of log_energies. -/
theorem c3_missing_log_fatal :
    log_energies (fun _ _ => none) db3 = Except.error PyErr.fileNotFound := by decide

/-- C6 evidence: for a transition record whose logs exist but contain
the imaginary-mode marker zero times, the harvest pass does not leave
the imaginary-frequency field unset; _parse_imaginary returns None and
the call None.strip() raises AttributeError. -/
theorem c6_ambiguous_imaginary_crashes :
    log_energies fs6 db6 = Except.error PyErr.attributeError := by decide

/-- C2 counterexample: a stationary record with single_point already set
(value 1) and zero_point NULL is re-extracted by the pass; with the
marker now absent from calc.log the UPDATE overwrites the previously
non-null single_point with NULL, contradicting the claim that a
non-null field keeps its value. -/
theorem c2_counterexample :
    dbC2.energies.map (fun e => e.single_point) = [some 1] ∧
    (log_energies fsC2 dbC2).map (fun d => d.energies.map (fun e => e.single_point)) =
      Except.ok [none] := by decide

/-- C2 amended: for a store holding one stationary record with an
existing but incomplete energies row, the harvest pass re-runs
extraction for all three energy fields and overwrites all three in
place with the freshly parsed values, whatever they are; a previously
non-null field survives only when re-extraction produces it again. -/
theorem c2_amended (fs : FS) (sid nS nT nE : Nat) (amchi sm xy : String) (e0 : EnRow)
    (s z t : Option ℚ)
    (hlink : e0.stationary_id = some sid)
    (hinc : e0.single_point = none ∨ e0.zero_point = none ∨ e0.total_energy = none)
    (hp : _parse_energies fs amchi = Except.ok (s, z, t)) :
    log_energies fs ⟨[⟨sid, amchi, sm, xy⟩], [], [e0], nS, nT, nE⟩ =
      Except.ok ⟨[⟨sid, amchi, sm, xy⟩], [],
        [{ e0 with single_point := s, zero_point := z, total_energy := t }], nS, nT, nE⟩ := by
  have hbeq : (e0.stationary_id == some sid) = true := by simp [hlink]
  simp only [log_energies, logStationaryLoop, logEnergiesStationaryStep, List.find?, hbeq,
    cond_true, if_pos hinc, hp, logTransitionLoop, List.map_cons, List.map_nil, if_true]

/-- C2 witness: a concrete record with single_point 1 and zero_point
NULL, whose logs exist but no longer contain the markers: the pass
overwrites all three energy fields with the re-parsed values, here all
NULL, erasing the previously set single_point. -/
theorem c2_amended_witness :
    log_energies fsC2 ⟨[⟨1, "A", "C", "xa"⟩], [], [⟨1, some 1, none, some 1, none, none, none⟩], 2, 1, 2⟩ =
      Except.ok ⟨[⟨1, "A", "C", "xa"⟩], [],
        [{ (⟨1, some 1, none, some 1, none, none, none⟩ : EnRow) with
            single_point := (none : Option ℚ), zero_point := (none : Option ℚ),
            total_energy := (none : Option ℚ) }], 2, 1, 2⟩ :=
  c2_amended fsC2 1 2 1 2 "A" "C" "xa" ⟨1, some 1, none, some 1, none, none, none⟩
    none none none rfl (Or.inr (Or.inl rfl)) (by decide)

/-- Inner overwriting loop of _build_scan over the forming bonds: the
surviving value of the scan variable is determined by the last forming
bond sharing exactly one atom with the breaking bond, else the
accumulator is kept. -/
theorem innerScanFold (b1 b2 : Nat) (dmat : Nat → Nat → ℚ) (l : List (Nat × Nat)) :
    ∀ acc : Option ScanDirective,
      List.foldl (fun scan2 fb =>
        if sharedAtomCount (b1, b2) fb = 1 then
          some ⟨b2, otherAtom fb (b1, b2),
                angstrom (dmat b2 (otherAtom fb (b1, b2))), (0.7 : ℚ), 100⟩
        else scan2) acc l =
      match lastQualifying (b1, b2) l with
      | some f =>
        some ⟨b2, otherAtom f (b1, b2), angstrom (dmat b2 (otherAtom f (b1, b2))), (0.7 : ℚ), 100⟩
      | none => acc := by
  induction l with
  | nil => intro acc; rfl
  | cons f rest ih =>
    intro acc
    simp only [List.foldl_cons, lastQualifying]
    by_cases h : sharedAtomCount (b1, b2) f = 1
    · rw [if_pos h, ih]
      cases hq : lastQualifying (b1, b2) rest <;> simp [h]
    · rw [if_neg h, ih]
      cases hq : lastQualifying (b1, b2) rest <;> simp [h]

/-- Behaviour of _build_scan for a transition with exactly one breaking
bond: with no forming bonds the fallback directive over the breaking
bond is emitted; with forming bonds present the directive of the last
one sharing exactly one atom survives, and when none qualifies the scan
variable is never assigned (UnboundLocalError, modelled by none). -/
theorem build_scan_single (a b : Nat) (formed : List (Nat × Nat)) (dmat : Nat → Nat → ℚ) :
    _build_scan [(a, b)] formed dmat =
      match formed, lastQualifying (a, b) formed with
      | [], _ => some ⟨a, b, angstrom (dmat a b), (2.0 : ℚ), 100⟩
      | _ :: _, some f =>
        some ⟨b, otherAtom f (a, b), angstrom (dmat b (otherAtom f (a, b))), (0.7 : ℚ), 100⟩
      | _ :: _, none => none := by
  cases formed with
  | nil => rfl
  | cons f rest =>
    simp only [_build_scan, List.foldl_cons, List.foldl_nil]
    rw [if_pos (by simp : (f :: rest).length > 0)]
    rw [innerScanFold a b dmat rest]
    cases hq : lastQualifying (a, b) rest with
    | some g => simp [lastQualifying, hq]
    | none =>
      by_cases h : sharedAtomCount (a, b) f = 1
      · simp [lastQualifying, hq, h]
      · simp [lastQualifying, hq, h]

/-- C4 counterexample: breaking bond (0,1) with the forming bond (2,3)
present but sharing no atom.  The claim requires a fallback directive
over (0,1) with step 2.0; the code only takes the fallback when there
are no forming bonds at all, so here the scan variable is never
assigned and no directive is emitted. -/
theorem c4_counterexample :
    _build_scan [(0, 1)] [(2, 3)] (fun _ _ => 1) = none ∧
    _build_scan [(0, 1)] [(2, 3)] (fun _ _ => 1) ≠
      some ⟨0, 1, angstrom 1, (2.0 : ℚ), 100⟩ := by
  refine ⟨by decide, ?_⟩
  intro h
  rw [show _build_scan [(0, 1)] [(2, 3)] (fun _ _ => 1) = none from by decide] at h
  exact Option.noConfusion h

/-- C4 amended: for a transition with one breaking bond (a,b), the
emitted directive is over (a,b) at its measured distance (converted by
0.529177) with step 2.0 over 100 steps only when the forming bond set
is empty; when forming bonds exist, the directive is over (b,c) with c
taken from the last forming bond sharing exactly one atom (step 0.7,
100 steps, measured (b,c) distance converted by 0.529177), and when
none qualifies no directive is emitted (the builder fails). -/
theorem c4_scan_selection (a b : Nat) (formed : List (Nat × Nat)) (dmat : Nat → Nat → ℚ) :
    _build_scan [(a, b)] formed dmat =
      match formed, lastQualifying (a, b) formed with
      | [], _ => some ⟨a, b, angstrom (dmat a b), (2.0 : ℚ), 100⟩
      | _ :: _, some f =>
        some ⟨b, otherAtom f (a, b), angstrom (dmat b (otherAtom f (a, b))), (0.7 : ℚ), 100⟩
      | _ :: _, none => none :=
  build_scan_single a b formed dmat

/-- C5 counterexample: breaking bond (0,1) with two forming bonds (1,2)
and (1,3), both sharing exactly one atom.  The claim requires one
directive per match; the code keeps a single scan string, so only the
directive for the last match (1,3) is emitted and the (1,2) directive
is absent from the transition's scan specification. -/
theorem c5_counterexample :
    (_build_scan [(0, 1)] [(1, 2), (1, 3)] (fun _ _ => 1)).map
        (fun d => (d.atom_1, d.atom_2)) = some (1, 3) ∧
    (_build_scan [(0, 1)] [(1, 2), (1, 3)] (fun _ _ => 1)).map
        (fun d => (d.atom_1, d.atom_2)) ≠ some (1, 2) := by
  constructor
  · decide
  · intro h
    rw [show (_build_scan [(0, 1)] [(1, 2), (1, 3)] (fun _ _ => 1)).map
        (fun d => (d.atom_1, d.atom_2)) = some (1, 3) from by decide] at h
    exact absurd (Option.some.inj h) (by decide)

/-- C5 amended: when a breaking bond (a,b) matches two forming bonds by
the one-shared-atom rule, the builder emits a single scan directive,
the one of the last matching forming bond in iteration order; earlier
matches are overwritten, not emitted alongside. -/
theorem c5_single_directive (a b : Nat) (f1 f2 : Nat × Nat) (dmat : Nat → Nat → ℚ)
    (_h1 : sharedAtomCount (a, b) f1 = 1) (h2 : sharedAtomCount (a, b) f2 = 1) :
    _build_scan [(a, b)] [f1, f2] dmat =
      some ⟨b, otherAtom f2 (a, b), angstrom (dmat b (otherAtom f2 (a, b))), (0.7 : ℚ), 100⟩ := by
  rw [build_scan_single]
  have hq : lastQualifying (a, b) [f1, f2] = some f2 := by
    simp [lastQualifying, h2]
  rw [hq]

/-- C5 witness: the amended statement at breaking bond (0,1) and forming
bonds (1,2) and (1,3) with unit distances. -/
theorem c5_single_directive_witness :
    _build_scan [(0, 1)] [(1, 2), (1, 3)] (fun _ _ => 1) =
      some ⟨1, 3, angstrom 1, (0.7 : ℚ), 100⟩ :=
  c5_single_directive 0 1 (1, 2) (1, 3) (fun _ _ => 1) (by decide) (by decide)

/-- Invariant of the submission fold: allocation_requests always equals
the rendered forms of the issued requests, stays duplicate-free, and
holds exactly the initial keys plus the rendered specification of every
processed node. -/
theorem submitFold_invariant (l : List (String × ORCA_Parameters)) :
    ∀ (reqs : List String) (issued : List (List String)) (tasks : List TaskReq),
      reqs = issued.map String.join → reqs.Nodup →
      (l.foldl submitStep (reqs, issued, tasks)).1 =
        ((l.foldl submitStep (reqs, issued, tasks)).2.1).map String.join ∧
      (l.foldl submitStep (reqs, issued, tasks)).1.Nodup ∧
      (∀ s, s ∈ (l.foldl submitStep (reqs, issued, tasks)).1 ↔
        s ∈ reqs ∨ ∃ n ∈ l, String.join (_slurm_alloc n.2) = s) := by
  induction l with
  | nil =>
    intro reqs issued tasks h hd
    simpa using ⟨h, hd⟩
  | cons n rest ih =>
    intro reqs issued tasks h hd
    simp only [List.foldl_cons]
    by_cases hc : reqs.contains (String.join (_slurm_alloc n.2))
    · have hmem : String.join (_slurm_alloc n.2) ∈ reqs := List.elem_iff.mp hc
      have step : submitStep (reqs, issued, tasks) n =
          (reqs, issued, tasks ++ [⟨n.1, n.2.processors, memMiB n.2.max_memory⟩]) := by
        simp [submitStep, hmem]
      rw [step]
      obtain ⟨i1, i2, i3⟩ := ih reqs issued _ h hd
      refine ⟨i1, i2, fun s => ?_⟩
      rw [i3 s]
      constructor
      · rintro (hs | ⟨m, hm, hjs⟩)
        · exact Or.inl hs
        · exact Or.inr ⟨m, List.mem_cons_of_mem n hm, hjs⟩
      · rintro (hs | ⟨m, hm, hjs⟩)
        · exact Or.inl hs
        · rcases List.mem_cons.mp hm with rfl | hm2
          · exact Or.inl (hjs ▸ hmem)
          · exact Or.inr ⟨m, hm2, hjs⟩
    · have hnmem : String.join (_slurm_alloc n.2) ∉ reqs := fun hx =>
        hc (List.elem_iff.mpr hx)
      have step : submitStep (reqs, issued, tasks) n =
          (reqs ++ [String.join (_slurm_alloc n.2)], issued ++ [_slurm_alloc n.2],
           tasks ++ [⟨n.1, n.2.processors, memMiB n.2.max_memory⟩]) := by
        simp [submitStep, hnmem]
      rw [step]
      have h2 : reqs ++ [String.join (_slurm_alloc n.2)] =
          (issued ++ [_slurm_alloc n.2]).map String.join := by
        simp [h]
      have hd2 : (reqs ++ [String.join (_slurm_alloc n.2)]).Nodup := by
        simp [List.nodup_append, hd, hnmem]
      obtain ⟨i1, i2, i3⟩ := ih _ _ _ h2 hd2
      refine ⟨i1, i2, fun s => ?_⟩
      rw [i3 s]
      constructor
      · rintro (hs | ⟨m, hm, hjs⟩)
        · rcases List.mem_append.mp hs with hs2 | hs2
          · exact Or.inl hs2
          · exact Or.inr ⟨n, List.mem_cons_self n rest, (List.mem_singleton.mp hs2).symm⟩
        · exact Or.inr ⟨m, List.mem_cons_of_mem n hm, hjs⟩
      · rintro (hs | ⟨m, hm, hjs⟩)
        · exact Or.inl (List.mem_append.mpr (Or.inl hs))
        · rcases List.mem_cons.mp hm with rfl | hm2
          · exact Or.inl (List.mem_append.mpr (Or.inr (List.mem_singleton.mpr hjs.symm)))
          · exact Or.inr ⟨m, hm2, hjs⟩

/-- C7: within one run of submit_tasks_orca, the issued
cluster-allocation requests have pairwise distinct rendered forms, and
a rendered form is issued precisely when some job of the task graph
derives it: exactly one allocation request per distinct rendered
specification. -/
theorem c7_allocation_dedup (task_graph : List (String × ORCA_Parameters)) :
    (((submit_tasks_orca task_graph).2.1).map String.join).Nodup ∧
    ∀ s, s ∈ ((submit_tasks_orca task_graph).2.1).map String.join ↔
      ∃ n ∈ task_graph, String.join (_slurm_alloc n.2) = s := by
  obtain ⟨h1, h2, h3⟩ :=
    submitFold_invariant task_graph [] [] [] (by simp) List.nodup_nil
  constructor
  · rw [show ((submit_tasks_orca task_graph).2.1).map String.join =
        (submit_tasks_orca task_graph).1 from (by simpa [submit_tasks_orca] using h1.symm)]
    simpa [submit_tasks_orca] using h2
  · intro s
    rw [show ((submit_tasks_orca task_graph).2.1).map String.join =
        (submit_tasks_orca task_graph).1 from (by simpa [submit_tasks_orca] using h1.symm)]
    have := h3 s
    simpa [submit_tasks_orca] using this

/-- Task accumulation of the submission fold: every node contributes
exactly one task with its processor count and converted memory. -/
theorem submitFold_tasks (l : List (String × ORCA_Parameters)) :
    ∀ st : List String × List (List String) × List TaskReq,
      (l.foldl submitStep st).2.2 =
        st.2.2 ++ l.map (fun n => ⟨n.1, n.2.processors, memMiB n.2.max_memory⟩) := by
  induction l with
  | nil => intro st; simp
  | cons n rest ih =>
    intro st
    simp only [List.foldl_cons, List.map_cons]
    rw [ih]
    simp [submitStep]

/-- C8 counterexample: for a job requesting 1049 MB the program passes
1001 MiB to the scheduler, because the binary64 quotient 1049 / 1.049
lands just above 1000 and math.ceil rounds it up, while the exact
ceiling demanded by the claim is 1000. -/
theorem c8_counterexample :
    (submit_tasks_orca [("job", ⟨"calc", 8, 1049, 20, "04:00:00"⟩)]).2.2 =
      [⟨"job", 8, 1001⟩] ∧
    ⌈(1049 : ℚ) / (1.049 : ℚ)⌉ = 1000 ∧ (1001 : ℤ) ≠ 1000 := by
  refine ⟨by decide, ?_, by decide⟩
  have hq : (1049 : ℚ) / (1.049 : ℚ) = 1000 := by norm_num
  rw [hq]
  norm_num

/-- C8 amended: for every job whose requested memory in MB is below
2^53 (so the int-to-double conversion is exact and no overflow can
occur), the memory request passed to the scheduler in MiB equals the
IEEE binary64 evaluation of ceil(requested memory in MB / 1.049),
which exceeds the exact rational ceiling by one at multiples of 1049
MB; the processor count is passed through unchanged. -/
theorem c8_resources_ieee (task_graph : List (String × ORCA_Parameters))
    (_hrange : ∀ n ∈ task_graph, n.2.max_memory < 2 ^ 53) :
    (submit_tasks_orca task_graph).2.2 =
      task_graph.map (fun n => ⟨n.1, n.2.processors, memMiB n.2.max_memory⟩) := by
  have h := submitFold_tasks task_graph ([], [], [])
  simpa [submit_tasks_orca] using h

/-- C8 witness: the amended statement at a single job with 8 processors
and 1049 MB, whose resource request carries 1001 MiB. -/
theorem c8_resources_ieee_witness :
    (∀ n ∈ [("job", (⟨"calc", 8, 1049, 20, "04:00:00"⟩ : ORCA_Parameters))],
      n.2.max_memory < 2 ^ 53) ∧
    (submit_tasks_orca [("job", ⟨"calc", 8, 1049, 20, "04:00:00"⟩)]).2.2 =
      [("job", (⟨"calc", 8, 1049, 20, "04:00:00"⟩ : ORCA_Parameters))].map
        (fun n => ⟨n.1, n.2.processors, memMiB n.2.max_memory⟩) :=
  ⟨by decide, c8_resources_ieee _ (by decide)⟩

/-- C9 counterexample: with one reactant and one candidate product set
of two products (one generated transition), the built graph has exactly
one in-edge into the transition node (one per reactant), not the two
the claim states. -/
theorem c9_counterexample :
    (process_rdkit_reaction [rEx9] [[pEx91, pEx92]] (fun _ _ => [tEx9])).map
        (fun g => inDegree g "T") = some 1 ∧
    (process_rdkit_reaction [rEx9] [[pEx91, pEx92]] (fun _ _ => [tEx9])).map
        (fun g => inDegree g "T") ≠ some 2 := by
  constructor
  · decide
  · intro h
    rw [show (process_rdkit_reaction [rEx9] [[pEx91, pEx92]] (fun _ _ => [tEx9])).map
        (fun g => inDegree g "T") = some 1 from by decide] at h
    exact absurd (Option.some.inj h) (by decide)

/-- C9 amended: for one reactant and one candidate product set of two
products with one successfully generated transition (all four amchis
distinct), the built WorkGraph has exactly 3 stationary nodes and 1
transition node, with 1 in-edge into the transition node and 2
out-edges from it. -/
theorem c9_graph_shape (r p1 p2 : MolInput) (t : TransInfo) (d : ScanDirective)
    (hscan : _build_scan t.broken t.formed t.dmat = some d)
    (h1 : r.amchi ≠ p1.amchi) (h2 : r.amchi ≠ p2.amchi) (h3 : p1.amchi ≠ p2.amchi)
    (h4 : t.amchi ≠ r.amchi) (h5 : t.amchi ≠ p1.amchi) (h6 : t.amchi ≠ p2.amchi) :
    ∃ g, process_rdkit_reaction [r] [[p1, p2]] (fun _ _ => [t]) = some g ∧
      stationaryCount g = 3 ∧ transitionCount g = 1 ∧
      inDegree g t.amchi = 1 ∧ outDegree g t.amchi = 2 := by
  refine ⟨⟨[(r.amchi, ⟨"reactant", some r.input_smiles, r.xyz, none, [], []⟩),
            (p1.amchi, ⟨"product", some p1.input_smiles, p1.xyz, none, [], []⟩),
            (p2.amchi, ⟨"product", some p2.input_smiles, p2.xyz, none, [], []⟩),
            (t.amchi, ⟨"transition", none, t.xyz, some d, [r.amchi], [p1.amchi, p2.amchi]⟩)],
           [(r.amchi, t.amchi), (t.amchi, p1.amchi), (t.amchi, p2.amchi)]⟩, ?_, ?_, ?_, ?_, ?_⟩
  · simp [process_rdkit_reaction, _add_stationary, productSetLoop, transLoop,
      _add_transition, hscan, addNode, addEdge,
      h1, h2, h3, h4, h5, h6,
      Ne.symm h1, Ne.symm h2, Ne.symm h3, Ne.symm h4, Ne.symm h5, Ne.symm h6]
  · simp [stationaryCount]
  · simp [transitionCount]
  · simp [inDegree, Ne.symm h5, Ne.symm h6]
  · simp [outDegree, Ne.symm h4]

/-- C9 witness: the amended graph shape at concrete inputs with amchis
R, P1, P2 and T. -/
theorem c9_graph_shape_witness :
    ∃ g, process_rdkit_reaction [rEx9] [[pEx91, pEx92]] (fun _ _ => [tEx9]) = some g ∧
      stationaryCount g = 3 ∧ transitionCount g = 1 ∧
      inDegree g tEx9.amchi = 1 ∧ outDegree g tEx9.amchi = 2 :=
  c9_graph_shape rEx9 pEx91 pEx92 tEx9 ⟨0, 1, angstrom 1, (2.0 : ℚ), 100⟩ rfl
    (by decide) (by decide) (by decide) (by decide) (by decide) (by decide)

/-- Appending one row changes the per-amchi count by one exactly on that
row's amchi. -/
theorem countAmchiSt_append (l : List StRow) (r : StRow) (a : String) :
    countAmchiSt (l ++ [r]) a =
      countAmchiSt l a + if r.amchi = a then 1 else 0 := by
  simp only [countAmchiSt, List.filter_append, List.length_append]
  by_cases h : r.amchi = a
  · simp [h]
  · simp [h]

/-- A member row with the sought amchi makes the count positive. -/
theorem countAmchiSt_ne_zero (l : List StRow) (r : StRow) (a : String)
    (hr : r ∈ l) (ha : r.amchi = a) : countAmchiSt l a ≠ 0 := by
  have : r ∈ l.filter (fun q => q.amchi == a) := by
    simp [List.mem_filter, hr, ha]
  intro h0
  rw [countAmchiSt, List.length_eq_zero] at h0
  simp [h0] at this

/-- When the per-amchi select finds nothing the count is zero. -/
theorem countAmchiSt_zero_of_find (l : List StRow) (a : String)
    (h : l.find? (fun r => r.amchi == a) = none) : countAmchiSt l a = 0 := by
  rw [countAmchiSt, List.length_eq_zero, List.filter_eq_nil_iff]
  intro r hr
  have := List.find?_eq_none.mp h r hr
  simpa using this

/-- Transition-table version of countAmchiSt_append. -/
theorem countAmchiTr_append (l : List TrRow) (r : TrRow) (a : String) :
    countAmchiTr (l ++ [r]) a =
      countAmchiTr l a + if r.amchi = a then 1 else 0 := by
  simp only [countAmchiTr, List.filter_append, List.length_append]
  by_cases h : r.amchi = a
  · simp [h]
  · simp [h]

/-- Transition-table version of countAmchiSt_ne_zero. -/
theorem countAmchiTr_ne_zero (l : List TrRow) (r : TrRow) (a : String)
    (hr : r ∈ l) (ha : r.amchi = a) : countAmchiTr l a ≠ 0 := by
  have : r ∈ l.filter (fun q => q.amchi == a) := by
    simp [List.mem_filter, hr, ha]
  intro h0
  rw [countAmchiTr, List.length_eq_zero] at h0
  simp [h0] at this

/-- Transition-table version of countAmchiSt_zero_of_find. -/
theorem countAmchiTr_zero_of_find (l : List TrRow) (a : String)
    (h : l.find? (fun r => r.amchi == a) = none) : countAmchiTr l a = 0 := by
  rw [countAmchiTr, List.length_eq_zero, List.filter_eq_nil_iff]
  intro r hr
  have := List.find?_eq_none.mp h r hr
  simpa using this

/-- Effect of one first-pass step: the transition table and its counter
are untouched, stationary rows persist, a processed node's amchi ends
up present, and the per-amchi count rises from zero to one exactly for
a newly processed stationary amchi. -/
theorem stationaryStep_shape (db : DB) (ids : List (String × Nat))
    (sub : List (String × String)) (n : String × NodeData) (db2 : DB)
    (ids2 : List (String × Nat)) (sub2 : List (String × String))
    (h : stationaryStep (db, ids, sub) n = some (db2, ids2, sub2)) :
    db2.transition = db.transition ∧ db2.nextTransitionId = db.nextTransitionId ∧
    (∀ r ∈ db.stationary, r ∈ db2.stationary) ∧
    (isStationaryRole n.2.role = true → ∃ r ∈ db2.stationary, r.amchi = n.1) ∧
    (∀ a, countAmchiSt db2.stationary a =
      if (n.1 == a && isStationaryRole n.2.role) = true ∧ countAmchiSt db.stationary a = 0
      then 1 else countAmchiSt db.stationary a) := by
  by_cases hrole : isStationaryRole n.2.role = false
  · simp only [stationaryStep, hrole, if_pos] at h
    obtain ⟨hdb, hids, hsub⟩ := Prod.mk.injEq .. ▸ Option.some.inj h
    subst hdb
    refine ⟨rfl, rfl, fun r hr => hr, ?_, ?_⟩
    · intro ht; rw [hrole] at ht; exact absurd ht (by simp)
    · intro a
      rw [if_neg]
      rintro ⟨hcond, -⟩
      rw [hrole] at hcond
      simp at hcond
  · have hrole2 : isStationaryRole n.2.role = true := by
      revert hrole; cases isStationaryRole n.2.role <;> simp
    cases hf : db.stationary.find? (fun r => r.amchi == n.1) with
    | some row =>
      rw [stationaryStep] at h
      rw [if_neg (by simp [hrole2])] at h
      rw [hf] at h
      obtain ⟨hdb, hids, hsub⟩ := Prod.mk.injEq .. ▸ Option.some.inj h
      subst hdb
      have hrowmem : row ∈ db.stationary := List.mem_of_find?_eq_some hf
      have hrowam : row.amchi = n.1 := by
        have := List.find?_some hf; simpa using this
      refine ⟨rfl, rfl, fun r hr => hr, fun _ => ⟨row, hrowmem, hrowam⟩, ?_⟩
      intro a
      rw [if_neg]
      rintro ⟨hcond, hzero⟩
      have ha : n.1 = a := by
        have := (Bool.and_eq_true ..).mp hcond
        simpa using this.1
      exact countAmchiSt_ne_zero db.stationary row a hrowmem (hrowam.trans ha) hzero
    | none =>
      cases hsm : n.2.smiles with
      | none =>
        rw [stationaryStep] at h
        rw [if_neg (by simp [hrole2])] at h
        rw [hf, hsm] at h
        simp at h
      | some sm =>
        cases hxy : n.2.xyz with
        | none =>
          rw [stationaryStep] at h
          rw [if_neg (by simp [hrole2])] at h
          rw [hf, hsm, hxy] at h
          simp at h
        | some xy =>
          rw [stationaryStep] at h
          rw [if_neg (by simp [hrole2])] at h
          rw [hf, hsm, hxy] at h
          obtain ⟨hdb, hids, hsub⟩ := Prod.mk.injEq .. ▸ Option.some.inj h
          subst hdb
          have hzero : countAmchiSt db.stationary n.1 = 0 :=
            countAmchiSt_zero_of_find db.stationary n.1 hf
          refine ⟨rfl, rfl, fun r hr => List.mem_append_left _ hr, ?_, ?_⟩
          · intro _
            exact ⟨⟨db.nextStationaryId, n.1, sm, xy⟩,
              List.mem_append_right _ (List.mem_singleton.mpr rfl), rfl⟩
          · intro a
            have hcount := countAmchiSt_append db.stationary
              ⟨db.nextStationaryId, n.1, sm, xy⟩ a
            by_cases ha : n.1 = a
            · subst ha
              rw [hcount, if_pos rfl, hzero]
              rw [if_pos ⟨by simp [hrole2], rfl⟩]
            · rw [hcount, if_neg ha, if_neg]
              · omega
              · rintro ⟨hcond, -⟩
                have := (Bool.and_eq_true ..).mp hcond
                exact ha (by simpa using this.1)

/-- A first-pass step over a node whose stationary amchi is already
present leaves the store and to_submit untouched. -/
theorem stationaryStep_noop (db : DB) (ids : List (String × Nat))
    (sub : List (String × String)) (n : String × NodeData)
    (hp : isStationaryRole n.2.role = true → ∃ r ∈ db.stationary, r.amchi = n.1) :
    ∃ ids2, stationaryStep (db, ids, sub) n = some (db, ids2, sub) := by
  by_cases hrole : isStationaryRole n.2.role = false
  · exact ⟨ids, by simp [stationaryStep, hrole]⟩
  · have hrole2 : isStationaryRole n.2.role = true := by
      revert hrole; cases isStationaryRole n.2.role <;> simp
    obtain ⟨r, hr, ha⟩ := hp hrole2
    have : (db.stationary.find? (fun q => q.amchi == n.1)).isSome := by
      rw [List.find?_isSome]
      exact ⟨r, hr, by simp [ha]⟩
    obtain ⟨row, hrow⟩ := Option.isSome_iff_exists.mp this
    refine ⟨ids ++ [(n.1, row.id)], ?_⟩
    rw [stationaryStep]
    rw [if_neg (by simp [hrole2])]
    rw [hrow]

/-- First pass over a whole graph: shape facts accumulated along the
fold. -/
theorem runPass1_shape (g : EnumGraph) :
    ∀ db ids sub db2 ids2 sub2,
      runPass1 g (db, ids, sub) = some (db2, ids2, sub2) →
      db2.transition = db.transition ∧ db2.nextTransitionId = db.nextTransitionId ∧
      (∀ r ∈ db.stationary, r ∈ db2.stationary) ∧
      (∀ n ∈ g, isStationaryRole n.2.role = true → ∃ r ∈ db2.stationary, r.amchi = n.1) ∧
      (∀ a, countAmchiSt db2.stationary a =
        if hasStationaryNode g a = true ∧ countAmchiSt db.stationary a = 0
        then 1 else countAmchiSt db.stationary a) := by
  induction g with
  | nil =>
    intro db ids sub db2 ids2 sub2 h
    rw [runPass1] at h
    obtain ⟨hdb, hids, hsub⟩ := Prod.mk.injEq .. ▸ Option.some.inj h
    subst hdb
    refine ⟨rfl, rfl, fun r hr => hr, by simp, fun a => ?_⟩
    rw [if_neg]
    rintro ⟨hcond, -⟩
    simp [hasStationaryNode] at hcond
  | cons n rest ih =>
    intro db ids sub db2 ids2 sub2 h
    rw [runPass1] at h
    cases hs : stationaryStep (db, ids, sub) n with
    | none => rw [hs] at h; exact absurd h (by simp)
    | some st2 =>
      rw [hs] at h
      obtain ⟨dbm, idsm, subm⟩ := st2
      obtain ⟨t1, t2, t3, t4, t5⟩ :=
        stationaryStep_shape db ids sub n dbm idsm subm hs
      obtain ⟨u1, u2, u3, u4, u5⟩ := ih dbm idsm subm db2 ids2 sub2 h
      refine ⟨u1.trans t1, u2.trans t2, fun r hr => u3 r (t3 r hr), ?_, ?_⟩
      · intro m hm hrole
        rcases List.mem_cons.mp hm with rfl | hm2
        · obtain ⟨r, hr, ha⟩ := t4 hrole
          exact ⟨r, u3 r hr, ha⟩
        · exact u4 m hm2 hrole
      · intro a
        have hcons : hasStationaryNode (n :: rest) a =
            ((n.1 == a && isStationaryRole n.2.role) || hasStationaryNode rest a) := by
          simp [hasStationaryNode]
        by_cases hmatch : (n.1 == a && isStationaryRole n.2.role) = true
        · by_cases hzero : countAmchiSt db.stationary a = 0
          · have hmid : countAmchiSt dbm.stationary a = 1 := by
              rw [t5 a, if_pos ⟨hmatch, hzero⟩]
            rw [u5 a, hmid]
            rw [if_neg (fun hx => one_ne_zero hx.2), hcons]
            rw [if_pos ⟨by simp [hmatch], hzero⟩]
          · have hmid : countAmchiSt dbm.stationary a = countAmchiSt db.stationary a := by
              rw [t5 a, if_neg (fun hx => hzero hx.2)]
            rw [u5 a, hmid, hcons]
            rw [if_neg (fun hx => hzero hx.2)]
            rw [if_neg (fun hx => hzero hx.2)]
        · have hmf : (n.1 == a && isStationaryRole n.2.role) = false := by
            revert hmatch; cases n.1 == a && isStationaryRole n.2.role <;> simp
          have hmid : countAmchiSt dbm.stationary a = countAmchiSt db.stationary a := by
            rw [t5 a, if_neg (fun hx => hmatch hx.1)]
          rw [u5 a, hmid, hcons, hmf, Bool.false_or]

/-- First pass over a graph whose stationary amchis are all already
stored: the store and to_submit come back unchanged. -/
theorem runPass1_noop (g : EnumGraph) :
    ∀ db ids sub,
      (∀ n ∈ g, isStationaryRole n.2.role = true → ∃ r ∈ db.stationary, r.amchi = n.1) →
      ∃ ids2, runPass1 g (db, ids, sub) = some (db, ids2, sub) := by
  induction g with
  | nil => intro db ids sub _; exact ⟨ids, rfl⟩
  | cons n rest ih =>
    intro db ids sub hp
    obtain ⟨idsm, hstep⟩ :=
      stationaryStep_noop db ids sub n (hp n (List.mem_cons_self n rest))
    obtain ⟨ids2, hrest⟩ :=
      ih db idsm sub (fun m hm => hp m (List.mem_cons_of_mem n hm))
    refine ⟨ids2, ?_⟩
    rw [runPass1, hstep]
    exact hrest

/-- Success shape of the INSERT branch of the second pass: one row with
the node's amchi is appended to the transition table and the amchi is
reported in to_submit; nothing else changes. -/
theorem insertTransitionRow_shape (ids : List (String × Nat)) (db : DB)
    (sub : List (String × String)) (amchi : String) (d : NodeData) (db2 : DB)
    (sub2 : List (String × String))
    (h : insertTransitionRow ids db sub amchi d = some (db2, sub2)) :
    ∃ row : TrRow, row.amchi = amchi ∧
      db2 = { db with
              transition := db.transition ++ [row],
              nextTransitionId := db.nextTransitionId + 1 } ∧
      sub2 = sub ++ [(amchi, "transition")] := by
  rw [insertTransitionRow] at h
  split at h <;> try simp at h
  split at h <;> try simp at h
  split at h <;> try simp at h
  split at h <;> try simp at h
  obtain ⟨hdb, hsub⟩ := h
  exact ⟨_, rfl, hdb.symm, hsub.symm⟩

/-- Effect of one second-pass step: the stationary table and its counter
and the energies are untouched, transition rows persist, the role check
must not be a TypeError, a processed transition amchi ends up present,
and the per-amchi count rises from zero to one exactly for a newly
processed transition amchi. -/
theorem transitionStep_shape (ids : List (String × Nat)) (db : DB)
    (sub : List (String × String)) (n : String × NodeData) (db2 : DB)
    (sub2 : List (String × String))
    (h : transitionStep ids (db, sub) n = some (db2, sub2)) :
    db2.stationary = db.stationary ∧ db2.nextStationaryId = db.nextStationaryId ∧
    (∀ r ∈ db.transition, r ∈ db2.transition) ∧
    (isTransitionRole n.2.role).isSome ∧
    (isTransitionRole n.2.role = some true → ∃ r ∈ db2.transition, r.amchi = n.1) ∧
    (∀ a, countAmchiTr db2.transition a =
      if (n.1 == a && (isTransitionRole n.2.role == some true)) = true ∧
          countAmchiTr db.transition a = 0
      then 1 else countAmchiTr db.transition a) := by
  cases hrole : isTransitionRole n.2.role with
  | none =>
    simp only [transitionStep, hrole] at h
    exact absurd h (by simp)
  | some b =>
    cases b with
    | false =>
      simp only [transitionStep, hrole] at h
      obtain ⟨hdb, hsub⟩ := Prod.mk.injEq .. ▸ Option.some.inj h
      subst hdb
      refine ⟨rfl, rfl, fun r hr => hr, by simp, ?_, ?_⟩
      · intro hx; simp at hx
      · intro a
        rw [if_neg]
        rintro ⟨hcond, -⟩
        simp at hcond
    | true =>
      cases hf : db.transition.find? (fun r => r.amchi == n.1) with
      | some row =>
        simp only [transitionStep, hrole, hf] at h
        obtain ⟨hdb, hsub⟩ := Prod.mk.injEq .. ▸ Option.some.inj h
        subst hdb
        have hrowmem : row ∈ db.transition := List.mem_of_find?_eq_some hf
        have hrowam : row.amchi = n.1 := by
          have := List.find?_some hf; simpa using this
        refine ⟨rfl, rfl, fun r hr => hr, by simp, fun _ => ⟨row, hrowmem, hrowam⟩, ?_⟩
        intro a
        rw [if_neg]
        rintro ⟨hcond, hzero⟩
        have ha : n.1 = a := by
          have := (Bool.and_eq_true ..).mp hcond
          simpa using this.1
        exact countAmchiTr_ne_zero db.transition row a hrowmem (hrowam.trans ha) hzero
      | none =>
        simp only [transitionStep, hrole, hf] at h
        obtain ⟨row, hram, hdb, hsub⟩ :=
          insertTransitionRow_shape ids db sub n.1 n.2 db2 sub2 h
        subst hdb
        have hzero : countAmchiTr db.transition n.1 = 0 :=
          countAmchiTr_zero_of_find db.transition n.1 hf
        refine ⟨rfl, rfl, fun r hr => List.mem_append_left _ hr, by simp, ?_, ?_⟩
        · intro _
          exact ⟨row, List.mem_append_right _ (List.mem_singleton.mpr rfl), hram⟩
        · intro a
          have hcount := countAmchiTr_append db.transition row a
          rw [hcount, hram]
          by_cases ha : n.1 = a
          · subst ha
            rw [if_pos rfl, hzero]
            rw [if_pos ⟨by simp, rfl⟩]
          · rw [if_neg ha, if_neg]
            · omega
            · rintro ⟨hcond, -⟩
              have := (Bool.and_eq_true ..).mp hcond
              exact ha (by simpa using this.1)

/-- A second-pass step over a node whose transition amchi is already
present (or whose role is not a transition) leaves the state untouched. -/
theorem transitionStep_noop (ids : List (String × Nat)) (db : DB)
    (sub : List (String × String)) (n : String × NodeData)
    (hrole : (isTransitionRole n.2.role).isSome)
    (hp : isTransitionRole n.2.role = some true → ∃ r ∈ db.transition, r.amchi = n.1) :
    transitionStep ids (db, sub) n = some (db, sub) := by
  cases hr : isTransitionRole n.2.role with
  | none => rw [hr] at hrole; simp at hrole
  | some b =>
    cases b with
    | false => simp [transitionStep, hr]
    | true =>
      obtain ⟨r, hrm, ha⟩ := hp hr
      have : (db.transition.find? (fun q => q.amchi == n.1)).isSome := by
        rw [List.find?_isSome]
        exact ⟨r, hrm, by simp [ha]⟩
      obtain ⟨row, hrow⟩ := Option.isSome_iff_exists.mp this
      simp [transitionStep, hr, hrow]

/-- Second pass over a whole graph: shape facts accumulated along the
fold. -/
theorem runPass2_shape (g : EnumGraph) :
    ∀ ids db sub db2 sub2,
      runPass2 ids g (db, sub) = some (db2, sub2) →
      db2.stationary = db.stationary ∧
      (∀ r ∈ db.transition, r ∈ db2.transition) ∧
      (∀ n ∈ g, (isTransitionRole n.2.role).isSome) ∧
      (∀ n ∈ g, isTransitionRole n.2.role = some true →
        ∃ r ∈ db2.transition, r.amchi = n.1) ∧
      (∀ a, countAmchiTr db2.transition a =
        if hasTransitionNode g a = true ∧ countAmchiTr db.transition a = 0
        then 1 else countAmchiTr db.transition a) := by
  induction g with
  | nil =>
    intro ids db sub db2 sub2 h
    rw [runPass2] at h
    obtain ⟨hdb, hsub⟩ := Prod.mk.injEq .. ▸ Option.some.inj h
    subst hdb
    refine ⟨rfl, fun r hr => hr, by simp, by simp, fun a => ?_⟩
    rw [if_neg]
    rintro ⟨hcond, -⟩
    simp [hasTransitionNode] at hcond
  | cons n rest ih =>
    intro ids db sub db2 sub2 h
    rw [runPass2] at h
    cases hs : transitionStep ids (db, sub) n with
    | none => rw [hs] at h; exact absurd h (by simp)
    | some st2 =>
      rw [hs] at h
      obtain ⟨dbm, subm⟩ := st2
      obtain ⟨t1, t2, t3, t4, t5, t6⟩ := transitionStep_shape ids db sub n dbm subm hs
      obtain ⟨u1, u2, u3, u4, u5⟩ := ih ids dbm subm db2 sub2 h
      refine ⟨u1.trans t1, fun r hr => u2 r (t3 r hr), ?_, ?_, ?_⟩
      · intro m hm
        rcases List.mem_cons.mp hm with rfl | hm2
        · exact t4
        · exact u3 m hm2
      · intro m hm hmrole
        rcases List.mem_cons.mp hm with rfl | hm2
        · obtain ⟨r, hr, ha⟩ := t5 hmrole
          exact ⟨r, u2 r hr, ha⟩
        · exact u4 m hm2 hmrole
      · intro a
        have hcons : hasTransitionNode (n :: rest) a =
            ((n.1 == a && (isTransitionRole n.2.role == some true)) ||
              hasTransitionNode rest a) := by
          simp [hasTransitionNode]
        by_cases hmatch : (n.1 == a && (isTransitionRole n.2.role == some true)) = true
        · by_cases hzero : countAmchiTr db.transition a = 0
          · have hmid : countAmchiTr dbm.transition a = 1 := by
              rw [t6 a, if_pos ⟨hmatch, hzero⟩]
            rw [u5 a, hmid]
            rw [if_neg (fun hx => one_ne_zero hx.2), hcons]
            rw [if_pos ⟨by simp [hmatch], hzero⟩]
          · have hmid : countAmchiTr dbm.transition a = countAmchiTr db.transition a := by
              rw [t6 a, if_neg (fun hx => hzero hx.2)]
            rw [u5 a, hmid, hcons]
            rw [if_neg (fun hx => hzero hx.2)]
            rw [if_neg (fun hx => hzero hx.2)]
        · have hmf : (n.1 == a && (isTransitionRole n.2.role == some true)) = false := by
            revert hmatch
            cases n.1 == a && (isTransitionRole n.2.role == some true) <;> simp
          have hmid : countAmchiTr dbm.transition a = countAmchiTr db.transition a := by
            rw [t6 a, if_neg (fun hx => hmatch hx.1)]
          rw [u5 a, hmid, hcons, hmf, Bool.false_or]

/-- Second pass over a graph whose transition amchis are all already
stored and whose roles all pass the membership test: a no-op. -/
theorem runPass2_noop (g : EnumGraph) :
    ∀ ids db sub,
      (∀ n ∈ g, (isTransitionRole n.2.role).isSome) →
      (∀ n ∈ g, isTransitionRole n.2.role = some true →
        ∃ r ∈ db.transition, r.amchi = n.1) →
      runPass2 ids g (db, sub) = some (db, sub) := by
  induction g with
  | nil => intro ids db sub _ _; rfl
  | cons n rest ih =>
    intro ids db sub hrole hp
    have hstep := transitionStep_noop ids db sub n
      (hrole n (List.mem_cons_self n rest)) (hp n (List.mem_cons_self n rest))
    rw [runPass2, hstep]
    exact ih ids db sub (fun m hm => hrole m (List.mem_cons_of_mem n hm))
      (fun m hm => hp m (List.mem_cons_of_mem n hm))

/-- C1: reconciliation is idempotent.  When a first run of
enumerated_graph_into_database succeeds, each stationary or transition
identifier of the graph occurs in its table exactly once afterwards
(unless the store already held it, in which case its count is
unchanged), and the second run over the same graph and store neither
changes the store nor reports any newly inserted identifier. -/
theorem c1_reconciliation_idempotent (g : EnumGraph) (db0 db1 : DB)
    (sub1 : List (String × String))
    (h : enumerated_graph_into_database g db0 = some (db1, sub1)) :
    enumerated_graph_into_database g db1 = some (db1, []) ∧
    (∀ a, countAmchiSt db1.stationary a =
      if hasStationaryNode g a = true ∧ countAmchiSt db0.stationary a = 0
      then 1 else countAmchiSt db0.stationary a) ∧
    (∀ a, countAmchiTr db1.transition a =
      if hasTransitionNode g a = true ∧ countAmchiTr db0.transition a = 0
      then 1 else countAmchiTr db0.transition a) := by
  rw [enumerated_graph_into_database] at h
  cases h1 : runPass1 g (db0, [], []) with
  | none => rw [h1] at h; exact absurd h (by simp)
  | some st1 =>
    rw [h1] at h
    obtain ⟨dbA, idsA, subA⟩ := st1
    have h3 : (match runPass2 idsA g (dbA, subA) with
        | none => none
        | some (db2, sub2) => some (db2, sub2)) = some (db1, sub1) := h
    cases h2 : runPass2 idsA g (dbA, subA) with
    | none => rw [h2] at h3; exact absurd h3 (by simp)
    | some st2 =>
      rw [h2] at h3
      obtain ⟨dbB, subB⟩ := st2
      obtain ⟨hdb, hsub⟩ := Prod.mk.injEq .. ▸ Option.some.inj h3
      rw [hdb, hsub] at h2
      obtain ⟨p1, p2, p3, p4, p5⟩ := runPass1_shape g db0 [] [] dbA idsA subA h1
      obtain ⟨q1, q2, q3, q4, q5⟩ := runPass2_shape g idsA dbA subA db1 sub1 h2
      have hstPresent : ∀ n ∈ g, isStationaryRole n.2.role = true →
          ∃ r ∈ db1.stationary, r.amchi = n.1 := by
        intro n hn hrole
        obtain ⟨r, hr, ha⟩ := p4 n hn hrole
        exact ⟨r, q1 ▸ hr, ha⟩
      obtain ⟨ids2, hrun1⟩ := runPass1_noop g db1 [] [] hstPresent
      have hrun2 : runPass2 ids2 g (db1, []) = some (db1, []) :=
        runPass2_noop g ids2 db1 [] q3 q4
      refine ⟨?_, ?_, ?_⟩
      · rw [enumerated_graph_into_database, hrun1]
        show (match runPass2 ids2 g (db1, []) with
            | none => none
            | some (db2, sub2) => some (db2, sub2)) = some (db1, [])
        rw [hrun2]
      · intro a
        rw [show db1.stationary = dbA.stationary from q1]
        exact p5 a
      · intro a
        have := q5 a
        rw [show dbA.transition = db0.transition from p1] at this
        exact this

/-- C1 witness: a graph with one reactant, one product and one
transition reconciled against a fresh store; the first run inserts all
three rows, the second run is a no-op reporting nothing new. -/
theorem c1_reconciliation_idempotent_witness :
    enumerated_graph_into_database gW db0W = some (db1W, subW) ∧
    enumerated_graph_into_database gW db1W = some (db1W, []) :=
  ⟨by decide, (c1_reconciliation_idempotent gW db0W db1W subW (by decide)).1⟩
